import Mathlib

/-!
Shallow embedding of the hyprland-mcp server (Rust) in Lean 4.

The repository has two snapshots of the server:
  * `src/lib.rs`  — the canonical server: socket-path resolution (`new`),
    the transport function (`cmd`), the quoting helper (`quote`) and a
    family of dedicated tools, each building one command string and
    handing it to `cmd` via the pass-through tool `hyprctl`.
  * `src/server.rs` — a minimal snapshot with only `dispatch` and
    `workspace` (without numeric validation); `src/main.rs` serves this
    snapshot.

Pure string construction is embedded directly; the socket transport is
embedded as a function parametrised by an oracle describing the outcome of
each I/O step, together with an explicit trace of the operations performed.
-/

namespace HyprlandMcp

/-- Model of Rust `str::replace` with a single-character pattern: every
occurrence of the character `pat` is replaced by the string `rep`, all other
characters are kept unchanged. -/
def rustReplaceChar (s : String) (pat : Char) (rep : String) : String :=
  s.data.foldr (fun c acc => (if c = pat then rep else String.singleton c) ++ acc) ""

/-- Embedding of `HyprlandMcpServer::quote` (src/lib.rs lines 147-149):
wrap the argument in double quotes, escaping each embedded double quote
with a backslash. -/
def quote (arg : String) : String :=
  "\"" ++ rustReplaceChar arg '"' "\\\"" ++ "\""

/-- Server state of the canonical server (src/lib.rs lines 16-20): the
resolved socket path. The tool router is a static registration table
generated at construction; it carries no run-time state of its own and is
represented by the unit value. -/
structure Server where
  sock : String
  toolRouter : Unit
deriving DecidableEq

/-- Embedding of `std::env::VarError`: the error returned by
`std::env::var` when a variable is absent (`NotPresent`) or not unicode
(`NotUnicode`). -/
inductive VarError where
  | notPresent
  | notUnicode (value : String)
deriving DecidableEq

/-- Display string of `std::env::VarError` (Rust standard library): the
`NotPresent` message is a fixed string that does not mention the name of
the variable that was missing. -/
def VarError.message : VarError → String
  | .notPresent => "environment variable not found"
  | .notUnicode _ => "environment variable was not valid unicode"

/-- Model of `std::env::var`: the environment value is given as an
`Option String` (present or absent). -/
def envVar (v : Option String) : Except VarError String :=
  match v with
  | some s => Except.ok s
  | none => Except.error VarError.notPresent

/-- Embedding of `HyprlandMcpServer::new` (src/lib.rs lines 124-134, and
identically src/server.rs lines 32-42): read `XDG_RUNTIME_DIR` and
`HYPRLAND_INSTANCE_SIGNATURE`, propagating a `VarError` if either is
absent, and resolve the socket path. -/
def Server.new (xdgRuntimeDir hyprlandInstanceSignature : Option String) :
    Except VarError Server := do
  let xdg ← envVar xdgRuntimeDir
  let instanceSig ← envVar hyprlandInstanceSignature
  Except.ok { sock := xdg ++ "/hypr/" ++ instanceSig ++ "/.socket.sock", toolRouter := () }

/-- One typed tool request of the canonical server: one constructor per
`#[tool]` method of src/lib.rs, carrying the fields of its request struct
(`usize`/`u32` as `Nat`, `i32` as `Int`, `Option<T>` as `Option`). -/
inductive ToolCall where
  | hyprctl (command : String)
  | workspace (n : Nat)
  | activewindow
  | activeworkspace
  | animations
  | binds
  | clients
  | configerrors
  | cursorpos
  | decorations (windowRegex : String)
  | dismissnotify (amount : Option Nat)
  | dispatch (args : String)
  | getoption (optionName : String)
  | globalshortcuts
  | instances
  | keyword (name value : String)
  | kill
  | layers
  | layouts
  | monitors (all : Option Bool)
  | notify (icon : Int) (timeoutMs : Nat) (color : String) (message : String)
  | output (args : String)
  | plugin (args : String)
  | reload (configOnly : Option Bool)
  | rollinglog (follow : Option Bool)
  | setcursor (theme : String) (size : Nat)
  | seterror (color message : String)
  | setprop (args : String)
  | getprop (args : String)
  | splash
  | switchxkblayout (keyboard command : String)
  | systeminfo
  | version
  | workspacerules
  | workspaces
  | hyprpaper (args : String)
  | hyprsunset (args : String)
deriving DecidableEq

/-- The command-building (and validating) step of each tool of the
canonical server (src/lib.rs lines 152-525): every tool first constructs
the command string it will pass to `hyprctl`/`cmd`; only `workspace`
validates, rejecting `n == 0` before any transport. -/
def buildCommand : ToolCall → Except String String
  | .hyprctl command => .ok command
  | .workspace n =>
      if n = 0 then .error "workspace must be >= 1"
      else .ok ("dispatch workspace " ++ toString n)
  | .activewindow => .ok "activewindow"
  | .activeworkspace => .ok "activeworkspace"
  | .animations => .ok "animations"
  | .binds => .ok "binds"
  | .clients => .ok "clients"
  | .configerrors => .ok "configerrors"
  | .cursorpos => .ok "cursorpos"
  | .decorations windowRegex => .ok ("decorations " ++ windowRegex)
  | .dismissnotify amount =>
      .ok (match amount with
        | some n => "dismissnotify " ++ toString n
        | none => "dismissnotify")
  | .dispatch args => .ok ("dispatch " ++ args)
  | .getoption optionName => .ok ("getoption " ++ optionName)
  | .globalshortcuts => .ok "globalshortcuts"
  | .instances => .ok "instances"
  | .keyword name value => .ok ("keyword " ++ name ++ " " ++ value)
  | .kill => .ok "kill"
  | .layers => .ok "layers"
  | .layouts => .ok "layouts"
  | .monitors all =>
      .ok (if all.getD false then "monitors all" else "monitors")
  | .notify icon timeoutMs color message =>
      .ok ("notify " ++ toString icon ++ " " ++ toString timeoutMs ++ " " ++ color ++ " "
        ++ quote message)
  | .output args => .ok ("output " ++ args)
  | .plugin args => .ok ("plugin " ++ args)
  | .reload configOnly =>
      .ok (if configOnly.getD false then "reload config-only" else "reload")
  | .rollinglog follow =>
      .ok (if follow.getD false then "rollinglog -f" else "rollinglog")
  | .setcursor theme size => .ok ("setcursor " ++ theme ++ " " ++ toString size)
  | .seterror color message => .ok ("seterror " ++ color ++ " " ++ quote message)
  | .setprop args => .ok ("setprop " ++ args)
  | .getprop args => .ok ("getprop " ++ args)
  | .splash => .ok "splash"
  | .switchxkblayout keyboard command => .ok ("switchxkblayout " ++ keyboard ++ " " ++ command)
  | .systeminfo => .ok "systeminfo"
  | .version => .ok "version"
  | .workspacerules => .ok "workspacerules"
  | .workspaces => .ok "workspaces"
  | .hyprpaper args => .ok ("hyprpaper " ++ args)
  | .hyprsunset args => .ok ("hyprsunset " ++ args)

/-- Outcome oracle for the whole transport call, as seen by a tool after
`map_err(|e| e.to_string())`: given the resolved socket path and the
command, the peer/OS determines either the response text or an error
string. -/
def Oracle : Type := String → String → Except String String

/-- Result of one tool invocation: the value returned to the caller and
the list of commands handed to the transport during the call. -/
structure Trace where
  result : Except String String
  sent : List String

/-- Embedding of one tool invocation of the canonical server: build (and
validate) the command; on validation failure return the error without any
transport activity; otherwise send the single built command through the
transport and return its outcome. The server state is taken and returned
explicitly; the Rust methods take `&self` and never mutate it. -/
def serve (s : Server) (o : Oracle) (c : ToolCall) : Trace × Server :=
  match buildCommand c with
  | .error e => ({ result := .error e, sent := [] }, s)
  | .ok cmdStr => ({ result := o s.sock cmdStr, sent := [cmdStr] }, s)

/-- Sequential execution of a list of tool calls, threading the server
state returned by each call into the next. -/
def serveAll (s : Server) (o : Oracle) : List ToolCall → List Trace
  | [] => []
  | c :: rest => (serve s o c).1 :: serveAll (serve s o c).2 o rest

/-- One I/O operation performed by the transport function `cmd` on the unix
socket. -/
inductive SockOp where
  | connect (path : String)
  | writeAll (data : String)
  | shutdownWrite
  | readToString
deriving DecidableEq

/-- Outcome of each I/O step, determined by the operating system and the
peer: connecting, writing all bytes, half-closing the write side, and
reading to end-of-stream with UTF-8 decoding (whose failure, Rust's
`InvalidData`, is an error of the read step, never a truncation). -/
structure SockWorld where
  connectRes : Except String Unit
  writeRes : Except String Unit
  shutdownRes : Except String Unit
  readRes : Except String String

/-- The full operation sequence of one successful transport call. -/
def fullSeq (path command : String) : List SockOp :=
  [.connect path, .writeAll command, .shutdownWrite, .readToString]

/-- Embedding of `HyprlandMcpServer::cmd` (src/lib.rs lines 136-145; the
src/server.rs copy at lines 44-57 factors the connect step through `open`
and is otherwise identical): connect to the socket path, write the whole
command, shut down the write side, read the peer's reply to end-of-stream
into one string. Each `?` propagates the first failure and ends the call.
The result is paired with the trace of I/O operations performed. -/
def cmd (w : SockWorld) (path command : String) : Except String String × List SockOp :=
  match w.connectRes with
  | .error e => (.error e, [.connect path])
  | .ok _ =>
    match w.writeRes with
    | .error e => (.error e, [.connect path, .writeAll command])
    | .ok _ =>
      match w.shutdownRes with
      | .error e => (.error e, [.connect path, .writeAll command, .shutdownWrite])
      | .ok _ =>
        match w.readRes with
        | .error e => (.error e, fullSeq path command)
        | .ok out => (.ok out, fullSeq path command)

/-- Specification-side description of the escaping step of the quoting
function: each double quote becomes backslash-quote; every other
character, backslashes included, is kept unchanged. -/
def escSpec : List Char → List Char
  | [] => []
  | c :: rest => if c = '"' then '\\' :: '"' :: escSpec rest else c :: escSpec rest

/-- Detects two consecutive space characters. -/
def twoSpaces : List Char → Bool
  | a :: b :: rest => (a == ' ' && b == ' ') || twoSpaces (b :: rest)
  | _ => false

/-- Whether a character sequence starts with a space. -/
def headSpace : List Char → Bool
  | [] => false
  | c :: _ => c == ' '

/-- A character sequence is well formed as a command token list when it is
nonempty, neither starts nor ends with a space, and never has two spaces
in a row. -/
def wellFormed (l : List Char) : Prop :=
  l ≠ [] ∧ l.head? ≠ some ' ' ∧ l.getLast? ≠ some ' ' ∧ twoSpaces l = false

instance (l : List Char) : Decidable (wellFormed l) := by
  unfold wellFormed; exact inferInstance

/-- The well-formedness condition on the caller-supplied arguments of each
tool request: every interpolated string argument is well formed as a token
list; for the message fields of notify and seterror — which the builder
wraps in double quotes, so that the quoted token starts and ends with a
quote character — only the absence of two consecutive spaces is required;
numeric fields and optional flags need no condition. -/
def goodArgs : ToolCall → Prop
  | .hyprctl command => wellFormed command.data
  | .decorations windowRegex => wellFormed windowRegex.data
  | .dispatch args => wellFormed args.data
  | .getoption optionName => wellFormed optionName.data
  | .keyword name value => wellFormed name.data ∧ wellFormed value.data
  | .notify _ _ color message =>
      wellFormed color.data ∧ twoSpaces message.data = false
  | .output args => wellFormed args.data
  | .plugin args => wellFormed args.data
  | .setcursor theme _ => wellFormed theme.data
  | .seterror color message =>
      wellFormed color.data ∧ twoSpaces message.data = false
  | .setprop args => wellFormed args.data
  | .getprop args => wellFormed args.data
  | .switchxkblayout keyboard command =>
      wellFormed keyboard.data ∧ wellFormed command.data
  | .hyprpaper args => wellFormed args.data
  | .hyprsunset args => wellFormed args.data
  | _ => True

end HyprlandMcp

namespace HyprlandMcp.Snapshot

/-- Embedding of the `workspace` tool of the minimal snapshot
(src/server.rs lines 70-77): no validation; the command
`dispatch workspace n` is built and sent for every `n`, including 0. -/
def serveWorkspace (s : Server) (o : Oracle) (n : Nat) : Trace × Server :=
  ({ result := o s.sock ("dispatch workspace " ++ toString n),
     sent := ["dispatch workspace " ++ toString n] }, s)

/-- Embedding of the `dispatch` tool of the minimal snapshot
(src/server.rs lines 62-68): the raw command string is sent verbatim. -/
def serveDispatch (s : Server) (o : Oracle) (command : String) : Trace × Server :=
  ({ result := o s.sock command, sent := [command] }, s)

end HyprlandMcp.Snapshot

namespace HyprlandMcp

/-! Helper lemmas about decimal rendering of naturals, the space-shape
predicates, and the quoting function. -/

theorem digitChar_ne_space (n : Nat) : Nat.digitChar n ≠ ' ' := by
  rcases Nat.lt_or_ge n 16 with h | h
  · interval_cases n <;> decide
  · have h0 : n ≠ 0 := by omega
    have h1 : n ≠ 1 := by omega
    have h2 : n ≠ 2 := by omega
    have h3 : n ≠ 3 := by omega
    have h4 : n ≠ 4 := by omega
    have h5 : n ≠ 5 := by omega
    have h6 : n ≠ 6 := by omega
    have h7 : n ≠ 7 := by omega
    have h8 : n ≠ 8 := by omega
    have h9 : n ≠ 9 := by omega
    have ha : n ≠ 0xa := by omega
    have hb : n ≠ 0xb := by omega
    have hc : n ≠ 0xc := by omega
    have hd : n ≠ 0xd := by omega
    have he : n ≠ 0xe := by omega
    have hf : n ≠ 0xf := by omega
    simp [Nat.digitChar, h0, h1, h2, h3, h4, h5, h6, h7, h8, h9, ha, hb, hc, hd, he, hf]

theorem toDigitsCore_no_space :
    ∀ (f n : Nat) (ds : List Char), (∀ c ∈ ds, c ≠ ' ') →
      ∀ c ∈ Nat.toDigitsCore 10 f n ds, c ≠ ' ' := by
  intro f
  induction f with
  | zero => intro n ds hds; exact hds
  | succ f ih =>
    intro n ds hds c hcmem
    have hcons : ∀ x ∈ Nat.digitChar (n % 10) :: ds, x ≠ ' ' := by
      intro x hx
      rcases List.mem_cons.mp hx with hx | hx
      · simpa [hx] using digitChar_ne_space (n % 10)
      · exact hds x hx
    unfold Nat.toDigitsCore at hcmem
    by_cases hq : n / 10 = 0
    · simp only [hq, if_pos] at hcmem
      exact hcons c hcmem
    · simp only [hq, if_neg, ite_false] at hcmem
      exact ih (n / 10) (Nat.digitChar (n % 10) :: ds) hcons c hcmem

theorem toDigitsCore_ne_nil :
    ∀ (f n : Nat) (ds : List Char), ds ≠ [] → Nat.toDigitsCore 10 f n ds ≠ [] := by
  intro f
  induction f with
  | zero => intro n ds hds; exact hds
  | succ f ih =>
    intro n ds hds
    unfold Nat.toDigitsCore
    by_cases hq : n / 10 = 0
    · simp [hq]
    · simp only [hq, ite_false]
      exact ih (n / 10) (Nat.digitChar (n % 10) :: ds) (List.cons_ne_nil _ _)

theorem repr_no_space (n : Nat) : ∀ c ∈ (toString n).data, c ≠ ' ' := by
  have : (toString n).data = Nat.toDigitsCore 10 (n + 1) n [] := rfl
  rw [this]
  exact toDigitsCore_no_space (n + 1) n [] (by intro c hc; cases hc)

theorem repr_ne_nil (n : Nat) : (toString n).data ≠ [] := by
  have : (toString n).data = Nat.toDigitsCore 10 (n + 1) n [] := rfl
  rw [this]
  unfold Nat.toDigitsCore
  by_cases hq : n / 10 = 0
  · simp [hq]
  · simp only [hq, ite_false]
    exact toDigitsCore_ne_nil n (n / 10) _ (List.cons_ne_nil _ _)

theorem twoSpaces_cons (a : Char) (l : List Char) :
    twoSpaces (a :: l) = ((a == ' ' && headSpace l) || twoSpaces l) := by
  cases l <;> simp [twoSpaces, headSpace]

theorem headSpace_eq_false {l : List Char} (h : l.head? ≠ some ' ') :
    headSpace l = false := by
  cases l with
  | nil => rfl
  | cons c r =>
    show (c == ' ') = false
    rw [beq_eq_false_iff_ne]
    intro hc
    exact h (by simp [hc])

theorem twoSpaces_of_no_space :
    ∀ {l : List Char}, (∀ c ∈ l, c ≠ ' ') → twoSpaces l = false := by
  intro l
  induction l with
  | nil => intro _; rfl
  | cons a r ih =>
    intro h
    rw [twoSpaces_cons]
    have ha : (a == ' ') = false := by
      rw [beq_eq_false_iff_ne]; exact h a (List.mem_cons_self a r)
    have hr : twoSpaces r = false := ih (fun c hc => h c (List.mem_cons_of_mem a hc))
    simp [ha, hr]

theorem wellFormed_of_no_space {l : List Char} (hne : l ≠ [])
    (h : ∀ c ∈ l, c ≠ ' ') : wellFormed l := by
  refine ⟨hne, ?_, ?_, twoSpaces_of_no_space h⟩
  · intro hh
    exact h ' ' (List.mem_of_mem_head? (by rw [hh]; exact rfl)) rfl
  · intro hh
    exact h ' ' (List.mem_of_mem_getLast? (by rw [hh]; exact rfl)) rfl

theorem wellFormed_repr (n : Nat) : wellFormed (toString n).data :=
  wellFormed_of_no_space (repr_ne_nil n) (repr_no_space n)

theorem twoSpaces_append_cons :
    ∀ {a : List Char}, twoSpaces a = false → a.getLast? ≠ some ' ' →
      ∀ {b : List Char}, twoSpaces b = false → b.head? ≠ some ' ' →
        twoSpaces (a ++ ' ' :: b) = false := by
  intro a
  induction a with
  | nil =>
    intro _ _ b hb hbh
    rw [List.nil_append, twoSpaces_cons, headSpace_eq_false hbh, hb]
    simp
  | cons x a ih =>
    intro ha halast b hb hbh
    rw [List.cons_append, twoSpaces_cons]
    rw [twoSpaces_cons] at ha
    have hx2 : twoSpaces a = false := by
      rcases Bool.or_eq_false_iff.mp ha with ⟨_, h2⟩; exact h2
    have hx1 : (x == ' ' && headSpace a) = false := by
      rcases Bool.or_eq_false_iff.mp ha with ⟨h1, _⟩; exact h1
    cases a with
    | nil =>
      have hx : (x == ' ') = false := by
        rw [beq_eq_false_iff_ne]
        intro hxeq
        exact halast (by simp [hxeq])
      have htail : twoSpaces ([] ++ ' ' :: b) = false := by
        rw [List.nil_append, twoSpaces_cons, headSpace_eq_false hbh, hb]
        simp
      rw [List.nil_append] at htail ⊢
      simp [headSpace, hx, htail]
    | cons y a' =>
      have halast' : (y :: a').getLast? ≠ some ' ' := by
        intro hl
        exact halast (by rw [List.getLast?_cons_cons]; exact hl)
      have htail : twoSpaces ((y :: a') ++ ' ' :: b) = false :=
        ih hx2 halast' hb hbh
      have hhead : headSpace ((y :: a') ++ ' ' :: b) = headSpace (y :: a') := by
        simp [headSpace, List.cons_append]
      rw [hhead, htail]
      have : (x == ' ' && headSpace (y :: a')) = false := hx1
      simp [this]

theorem wellFormed_sep {a b : List Char} (ha : wellFormed a) (hb : wellFormed b) :
    wellFormed (a ++ ' ' :: b) := by
  obtain ⟨hane, hah, hal, hat⟩ := ha
  obtain ⟨hbne, hbh, hbl, hbt⟩ := hb
  refine ⟨by simp, ?_, ?_, twoSpaces_append_cons hat hal hbt hbh⟩
  · cases a with
    | nil => exact absurd rfl hane
    | cons x r =>
      rw [List.cons_append]
      simpa using hah
  · rw [List.getLast?_append_cons]
    cases b with
    | nil => exact absurd rfl hbne
    | cons y s =>
      rw [List.getLast?_cons_cons]
      exact hbl

theorem escape_foldr_data (l : List Char) :
    (l.foldr (fun c acc => (if c = '"' then "\\\"" else String.singleton c) ++ acc)
      "").data = escSpec l := by
  induction l with
  | nil => rfl
  | cons c r ih =>
    show ((if c = '"' then "\\\"" else String.singleton c) ++ _).data = _
    rw [String.data_append]
    by_cases hc : c = '"'
    · simp [escSpec, hc, ih]
    · simp [escSpec, hc, ih]

theorem quote_data (m : String) :
    (quote m).data = '"' :: (escSpec m.data ++ ['"']) := by
  show ("\"" ++ rustReplaceChar m '"' "\\\"" ++ "\"").data = _
  rw [String.data_append, String.data_append]
  rw [show rustReplaceChar m '"' "\\\"" =
    m.data.foldr (fun c acc => (if c = '"' then "\\\"" else String.singleton c) ++ acc) ""
    from rfl]
  rw [escape_foldr_data m.data]
  rfl

theorem escSpec_append (a b : List Char) :
    escSpec (a ++ b) = escSpec a ++ escSpec b := by
  induction a with
  | nil => rfl
  | cons c r ih =>
    rw [List.cons_append]
    show escSpec (c :: (r ++ b)) = _
    by_cases hc : c = '"' <;> simp [escSpec, hc, ih]

end HyprlandMcp

namespace HyprlandMcp

/-! The claim theorems. -/

/-- C1: for every integer n ≥ 1 (written n + 1), the workspace tool builds
exactly the command `dispatch workspace n` and transmits that single
command; for n = 0 it returns the descriptive validation error and performs
no transport operation at all. -/
theorem workspace_validates (s : Server) (o : Oracle) (n : Nat) :
    serve s o (.workspace (n + 1)) =
      ({ result := o s.sock ("dispatch workspace " ++ toString (n + 1)),
         sent := ["dispatch workspace " ++ toString (n + 1)] }, s) ∧
    serve s o (.workspace 0) =
      ({ result := .error "workspace must be >= 1", sent := [] }, s) := by
  constructor
  · simp [serve, buildCommand]
  · rfl

/-- C2: the entry point serves the src/server.rs snapshot, whose workspace
tool builds and transmits `dispatch workspace n` for every n with no
validation; it agrees with the canonical workspace tool of src/lib.rs at
every n ≥ 1 and differs from it exactly at n = 0. -/
theorem snapshot_workspace_refines (s : Server) (o : Oracle) :
    (∀ n : Nat, (Snapshot.serveWorkspace s o n).1.sent =
      ["dispatch workspace " ++ toString n]) ∧
    (∀ n : Nat, Snapshot.serveWorkspace s o (n + 1) = serve s o (.workspace (n + 1))) ∧
    Snapshot.serveWorkspace s o 0 ≠ serve s o (.workspace 0) := by
  refine ⟨fun n => rfl, fun n => rfl, ?_⟩
  intro h
  have hs := congrArg (fun p => p.1.sent) h
  simp [Snapshot.serveWorkspace, serve, buildCommand] at hs

/-- C3: the quoting function wraps its argument in double quotes and
escapes each embedded double quote exactly once, and the notify tool
applies it to the message field: the concrete notify call of the spec
builds exactly the expected command. -/
theorem quote_escapes_and_notify :
    (∀ m : String, quote m = "\"" ++ String.mk (escSpec m.data) ++ "\"") ∧
    buildCommand (.notify 1 3000 "rgb(ff0000)" "He said \"hi\"") =
      .ok "notify 1 3000 rgb(ff0000) \"He said \\\"hi\\\"\"" := by
  constructor
  · intro m
    apply String.ext
    rw [quote_data, String.data_append, String.data_append]
    rfl
  · rfl

/-- C4: the pass-through tool hands its input string to the transport
verbatim: the single sent command is the input itself, and the result is
exactly the transport's outcome on it. -/
theorem hyprctl_identity (s : Server) (o : Oracle) (command : String) :
    (serve s o (.hyprctl command)).1.sent = [command] ∧
    (serve s o (.hyprctl command)).1.result = o s.sock command :=
  ⟨rfl, rfl⟩

/-- C5: optional-flag tools omit the modifier token when the flag is unset
and append the exact expected token when it is set to true. -/
theorem optional_flag_omission :
    buildCommand (.monitors none) = .ok "monitors" ∧
    buildCommand (.monitors (some true)) = .ok "monitors all" ∧
    buildCommand (.reload none) = .ok "reload" ∧
    buildCommand (.reload (some true)) = .ok "reload config-only" :=
  ⟨rfl, rfl, rfl, rfl⟩

/-- C9: every tool invocation returns the server state unchanged, and the
outcome of a sequence of calls is the pointwise outcome of each call on the
original state: no call affects any subsequent call. -/
theorem tool_calls_stateless (s : Server) (o : Oracle) :
    (∀ c : ToolCall, (serve s o c).2 = s) ∧
    (∀ cs : List ToolCall, serveAll s o cs = cs.map (fun c => (serve s o c).1)) := by
  have hstate : ∀ c : ToolCall, (serve s o c).2 = s := by
    intro c
    unfold serve
    cases buildCommand c <;> rfl
  refine ⟨hstate, ?_⟩
  intro cs
  induction cs with
  | nil => rfl
  | cons c rest ih =>
    show (serve s o c).1 :: serveAll (serve s o c).2 o rest = _
    rw [hstate c, ih]
    rfl

/-- C10: the quoting function escapes only double quotes and leaves
backslashes untouched: its output is an opening quote, the input with each
double quote turned into backslash-quote, and a closing quote; a message
ending in a backslash therefore ends in that unescaped backslash followed
directly by the closing quote. -/
theorem quote_preserves_backslashes :
    (∀ m : String, (quote m).data = '"' :: (escSpec m.data ++ ['"'])) ∧
    (∀ m : String, (quote (m.push '\\')).data =
      '"' :: (escSpec m.data ++ ['\\', '"'])) := by
  constructor
  · exact quote_data
  · intro m
    rw [quote_data, String.data_push, escSpec_append]
    simp [escSpec, show ('\\' : Char) ≠ '"' by decide]

end HyprlandMcp

namespace HyprlandMcp

theorem cmd_connect_err (e : String) (wr sr : Except String Unit)
    (rr : Except String String) (p c : String) :
    cmd ⟨.error e, wr, sr, rr⟩ p c = (.error e, [.connect p]) := rfl

theorem cmd_write_err (e : String) (sr : Except String Unit)
    (rr : Except String String) (p c : String) :
    cmd ⟨.ok (), .error e, sr, rr⟩ p c = (.error e, [.connect p, .writeAll c]) := rfl

theorem cmd_shutdown_err (e : String) (rr : Except String String) (p c : String) :
    cmd ⟨.ok (), .ok (), .error e, rr⟩ p c =
      (.error e, [.connect p, .writeAll c, .shutdownWrite]) := rfl

theorem cmd_read (rr : Except String String) (p c : String) :
    cmd ⟨.ok (), .ok (), .ok (), rr⟩ p c = (rr, fullSeq p c) := by
  cases rr <;> rfl

theorem count_connect_fullSeq (p c : String) :
    (fullSeq p c).count (SockOp.connect p) = 1 := by
  simp [fullSeq, List.count_cons]

/-- C6 counterexample: when a required environment value is missing,
construction fails with the standard library's fixed `NotPresent` error:
the very same error value whichever of the two values is the missing one,
with a display message that is a fixed string naming neither variable. -/
theorem startup_error_anonymous :
    Server.new none (some "sig") = Server.new (some "/run/user/1000") none ∧
    Server.new none (some "sig") = Except.error VarError.notPresent ∧
    VarError.message VarError.notPresent = "environment variable not found" ∧
    ¬ ("XDG_RUNTIME_DIR".data <:+:
        (VarError.message VarError.notPresent).data) ∧
    ¬ ("HYPRLAND_INSTANCE_SIGNATURE".data <:+:
        (VarError.message VarError.notPresent).data) := by
  refine ⟨rfl, rfl, rfl, ?_, ?_⟩ <;> decide

/-- C6 as amended: with both environment values present, construction
succeeds and resolves the socket path to
runtime_dir/hypr/instance_id/.socket.sock; with either absent it fails
before any tool call is served, with the standard `NotPresent` error,
whose description does not name the missing value. -/
theorem startup_resolution :
    (∀ xdg instSig : String, Server.new (some xdg) (some instSig) =
      Except.ok { sock := xdg ++ "/hypr/" ++ instSig ++ "/.socket.sock",
                  toolRouter := () }) ∧
    (∀ v : Option String, Server.new none v = Except.error VarError.notPresent) ∧
    (∀ x : String, Server.new (some x) none = Except.error VarError.notPresent) :=
  ⟨fun _ _ => rfl, fun _ => rfl, fun _ => rfl⟩

/-- C7: each transport call opens exactly one connection; its operation
trace is an initial segment of connect, write-all, half-close, read-to-end
(so no operation is ever repeated and no retry happens); when every step
succeeds the full sequence runs and the text read is returned; a decode
failure of the read step surfaces as an error after the same full
sequence, never as truncation. -/
theorem transport_protocol (w : SockWorld) (p c : String) :
    (cmd w p c).2.count (SockOp.connect p) = 1 ∧
    (∃ k, 1 ≤ k ∧ (cmd w p c).2 = (fullSeq p c).take k) ∧
    (∀ r : String, w.connectRes = .ok () → w.writeRes = .ok () →
      w.shutdownRes = .ok () → w.readRes = .ok r →
      cmd w p c = (.ok r, fullSeq p c)) ∧
    (∀ e : String, w.connectRes = .ok () → w.writeRes = .ok () →
      w.shutdownRes = .ok () → w.readRes = .error e →
      cmd w p c = (.error e, fullSeq p c)) := by
  obtain ⟨cr, wr, sr, rr⟩ := w
  cases cr with
  | error e =>
    refine ⟨?_, ⟨1, le_refl 1, ?_⟩, ?_, ?_⟩
    · rw [cmd_connect_err]
      simp [List.count_cons]
    · rw [cmd_connect_err]
      rfl
    · intro r h1 _ _ _; exact absurd h1 (by simp)
    · intro r h1 _ _ _; exact absurd h1 (by simp)
  | ok u =>
    cases u
    cases wr with
    | error e =>
      refine ⟨?_, ⟨2, by omega, ?_⟩, ?_, ?_⟩
      · rw [cmd_write_err]
        simp [List.count_cons]
      · rw [cmd_write_err]
        rfl
      · intro r _ h2 _ _; exact absurd h2 (by simp)
      · intro r _ h2 _ _; exact absurd h2 (by simp)
    | ok u =>
      cases u
      cases sr with
      | error e =>
        refine ⟨?_, ⟨3, by omega, ?_⟩, ?_, ?_⟩
        · rw [cmd_shutdown_err]
          simp [List.count_cons]
        · rw [cmd_shutdown_err]
          rfl
        · intro r _ _ h3 _; exact absurd h3 (by simp)
        · intro r _ _ h3 _; exact absurd h3 (by simp)
      | ok u =>
        cases u
        refine ⟨?_, ⟨4, by omega, ?_⟩, ?_, ?_⟩
        · rw [cmd_read]
          exact count_connect_fullSeq p c
        · rw [cmd_read]
          simp [fullSeq]
        · intro r _ _ _ h4
          rw [cmd_read, show rr = Except.ok r from h4]
        · intro e _ _ _ h4
          rw [cmd_read, show rr = Except.error e from h4]

/-- C7 witness: concrete run in which every step succeeds. -/
theorem transport_protocol_witness :
    cmd ⟨.ok (), .ok (), .ok (), .ok "ok"⟩ "/run/user/1000/hypr/sig/.socket.sock"
      "dispatch workspace 3" =
      (.ok "ok", fullSeq "/run/user/1000/hypr/sig/.socket.sock" "dispatch workspace 3") :=
  (transport_protocol ⟨.ok (), .ok (), .ok (), .ok "ok"⟩
    "/run/user/1000/hypr/sig/.socket.sock" "dispatch workspace 3").2.2.1
    "ok" rfl rfl rfl rfl

end HyprlandMcp

namespace HyprlandMcp

/-- C8 counterexample: with an empty caller-supplied string the built
command violates the token shape: the decorations tool on the empty regex
yields a command ending in a space, and the keyword tool with an empty
name yields a command with two consecutive spaces. -/
theorem command_trailing_space :
    buildCommand (.decorations "") = .ok "decorations " ∧
    ("decorations " : String).data.getLast? = some ' ' ∧
    buildCommand (.keyword "" "x") = .ok "keyword  x" ∧
    twoSpaces ("keyword  x" : String).data = true := by
  refine ⟨rfl, ?_, rfl, ?_⟩ <;> decide


theorem headSpace_escSpec (l : List Char) : headSpace (escSpec l) = headSpace l := by
  cases l with
  | nil => rfl
  | cons c r =>
    by_cases hc : c = '"'
    · subst hc
      rfl
    · have hesc : escSpec (c :: r) = c :: escSpec r := by simp [escSpec, hc]
      rw [hesc]
      rfl

theorem twoSpaces_escSpec :
    ∀ {l : List Char}, twoSpaces l = false → twoSpaces (escSpec l) = false := by
  intro l
  induction l with
  | nil => intro _; rfl
  | cons c r ih =>
    intro h
    rw [twoSpaces_cons] at h
    obtain ⟨h1, h2⟩ := Bool.or_eq_false_iff.mp h
    by_cases hc : c = '"'
    · subst hc
      have hesc : escSpec ('"' :: r) = '\\' :: '"' :: escSpec r := rfl
      rw [hesc, twoSpaces_cons, twoSpaces_cons, headSpace_escSpec]
      have e1 : (('\\' : Char) == ' ') = false := by decide
      have e2 : (('"' : Char) == ' ') = false := by decide
      simp [e1, e2, headSpace, ih h2]
    · have hesc : escSpec (c :: r) = c :: escSpec r := by simp [escSpec, hc]
      rw [hesc, twoSpaces_cons, headSpace_escSpec]
      simp [h1, ih h2]

theorem twoSpaces_append_single {c : Char} (hc : (c == ' ') = false) :
    ∀ {l : List Char}, twoSpaces l = false → twoSpaces (l ++ [c]) = false := by
  intro l
  induction l with
  | nil =>
    intro _
    show twoSpaces [c] = false
    rfl
  | cons x r ih =>
    intro hl
    rw [twoSpaces_cons] at hl
    obtain ⟨h1, h2⟩ := Bool.or_eq_false_iff.mp hl
    rw [List.cons_append, twoSpaces_cons]
    have ht : twoSpaces (r ++ [c]) = false := ih h2
    cases r with
    | nil =>
      have hh : headSpace ([] ++ [c]) = false := by simp [headSpace, hc]
      simp only [List.nil_append] at hh ht
      rw [List.nil_append, ht, hh]
      simp
    | cons y r' =>
      have hh : headSpace ((y :: r') ++ [c]) = headSpace (y :: r') := by
        simp [headSpace, List.cons_append]
      rw [hh, ht]
      simp [h1]

theorem wellFormed_quote (m : String) (hm : twoSpaces m.data = false) :
    wellFormed (quote m).data := by
  rw [quote_data]
  refine ⟨by simp, ?_, ?_, ?_⟩
  · intro hx
    exact absurd (Option.some.inj hx) (by decide)
  · rw [show ('"' :: (escSpec m.data ++ ['"'])) = (('"' :: escSpec m.data) ++ ['"'])
        from by simp,
        List.getLast?_append_of_ne_nil _ (by simp)]
    decide
  · rw [twoSpaces_cons]
    have h1 : twoSpaces (escSpec m.data ++ ['"']) = false :=
      twoSpaces_append_single (by decide) (twoSpaces_escSpec hm)
    simp [h1]

theorem wellFormed_int (i : Int) : wellFormed (toString i).data := by
  cases i with
  | ofNat n => exact wellFormed_repr n
  | negSucc n =>
    have hd : (toString (Int.negSucc n)).data = '-' :: (toString (n + 1)).data := by
      show ("-" ++ toString (n + 1)).data = _
      rw [String.data_append]
      rfl
    rw [hd]
    refine wellFormed_of_no_space (List.cons_ne_nil _ _) ?_
    intro ch hch
    rcases List.mem_cons.mp hch with hch | hch
    · subst hch
      decide
    · exact repr_no_space (n + 1) ch hch

theorem wellFormed_verb_arg (vs : String) (vcore : List Char)
    (hsplit : vs.data = vcore ++ [' ']) (hcore : wellFormed vcore)
    (arg : String) (harg : wellFormed arg.data) :
    wellFormed (vs ++ arg).data := by
  have hd : (vs ++ arg).data = vcore ++ ' ' :: arg.data := by
    rw [String.data_append, hsplit]
    simp [List.append_assoc]
  rw [hd]
  exact wellFormed_sep hcore harg

theorem wellFormed_verb_two (vs : String) (vcore : List Char)
    (hsplit : vs.data = vcore ++ [' ']) (hcore : wellFormed vcore)
    (a b : String) (ha : wellFormed a.data) (hb : wellFormed b.data) :
    wellFormed (vs ++ a ++ " " ++ b).data := by
  have hd : (vs ++ a ++ " " ++ b).data = vcore ++ ' ' :: (a.data ++ ' ' :: b.data) := by
    simp only [String.data_append]
    rw [hsplit]
    simp [List.append_assoc]
  rw [hd]
  exact wellFormed_sep hcore (wellFormed_sep ha hb)

end HyprlandMcp

namespace HyprlandMcp

/-- C8 as amended: for every tool and every request whose caller-supplied
string arguments are well formed (nonempty, no leading or trailing space,
no two consecutive spaces; for the quoted message fields of notify and
seterror only the no-two-consecutive-spaces condition, the quoting itself
supplying non-space delimiters), every successfully built command is
nonempty, has no leading or trailing space and never two consecutive
spaces: the fixed verb and the arguments are joined by exactly one space,
and numeric arguments always render as nonempty digit strings. An empty
string argument instead yields a trailing or doubled space, as the
counterexample shows. -/
theorem command_token_shape (c : ToolCall) (h : goodArgs c) :
    ∀ cmdStr : String, buildCommand c = .ok cmdStr → wellFormed cmdStr.data := by
  intro cmdStr heq
  cases c with
  | hyprctl command =>
    injection heq with hh
    subst hh
    exact h
  | workspace n =>
    cases n with
    | zero => simp [buildCommand] at heq
    | succ m =>
      have hb : buildCommand (.workspace (m + 1)) =
          .ok ("dispatch workspace " ++ toString (m + 1)) := by
        simp [buildCommand]
      rw [hb] at heq
      injection heq with hh
      subst hh
      exact wellFormed_verb_arg "dispatch workspace " "dispatch workspace".data rfl
        (by decide) _ (wellFormed_repr (m + 1))
  | activewindow => injection heq with hh; subst hh; decide
  | activeworkspace => injection heq with hh; subst hh; decide
  | animations => injection heq with hh; subst hh; decide
  | binds => injection heq with hh; subst hh; decide
  | clients => injection heq with hh; subst hh; decide
  | configerrors => injection heq with hh; subst hh; decide
  | cursorpos => injection heq with hh; subst hh; decide
  | decorations windowRegex =>
    injection heq with hh
    subst hh
    exact wellFormed_verb_arg "decorations " "decorations".data rfl (by decide) _ h
  | dismissnotify amount =>
    cases amount with
    | none => injection heq with hh; subst hh; decide
    | some n =>
      injection heq with hh
      subst hh
      exact wellFormed_verb_arg "dismissnotify " "dismissnotify".data rfl (by decide) _
        (wellFormed_repr n)
  | dispatch args =>
    injection heq with hh
    subst hh
    exact wellFormed_verb_arg "dispatch " "dispatch".data rfl (by decide) _ h
  | getoption optionName =>
    injection heq with hh
    subst hh
    exact wellFormed_verb_arg "getoption " "getoption".data rfl (by decide) _ h
  | globalshortcuts => injection heq with hh; subst hh; decide
  | instances => injection heq with hh; subst hh; decide
  | keyword name value =>
    injection heq with hh
    subst hh
    exact wellFormed_verb_two "keyword " "keyword".data rfl (by decide) name value h.1 h.2
  | kill => injection heq with hh; subst hh; decide
  | layers => injection heq with hh; subst hh; decide
  | layouts => injection heq with hh; subst hh; decide
  | monitors all =>
    rcases all with _ | b
    · injection heq with hh; subst hh; decide
    · cases b with
      | false => injection heq with hh; subst hh; decide
      | true => injection heq with hh; subst hh; decide
  | notify icon timeoutMs color message =>
    injection heq with hh
    subst hh
    have hd : ("notify " ++ toString icon ++ " " ++ toString timeoutMs ++ " " ++ color
        ++ " " ++ quote message).data =
        "notify".data ++ ' ' :: ((toString icon).data ++ ' ' ::
          ((toString timeoutMs).data ++ ' ' ::
            (color.data ++ ' ' :: (quote message).data))) := by
      simp only [String.data_append]
      simp [List.append_assoc]
    rw [hd]
    exact wellFormed_sep (by decide)
      (wellFormed_sep (wellFormed_int icon)
        (wellFormed_sep (wellFormed_repr timeoutMs)
          (wellFormed_sep h.1 (wellFormed_quote message h.2))))
  | output args =>
    injection heq with hh
    subst hh
    exact wellFormed_verb_arg "output " "output".data rfl (by decide) _ h
  | plugin args =>
    injection heq with hh
    subst hh
    exact wellFormed_verb_arg "plugin " "plugin".data rfl (by decide) _ h
  | reload configOnly =>
    rcases configOnly with _ | b
    · injection heq with hh; subst hh; decide
    · cases b with
      | false => injection heq with hh; subst hh; decide
      | true => injection heq with hh; subst hh; decide
  | rollinglog follow =>
    rcases follow with _ | b
    · injection heq with hh; subst hh; decide
    · cases b with
      | false => injection heq with hh; subst hh; decide
      | true => injection heq with hh; subst hh; decide
  | setcursor theme size =>
    injection heq with hh
    subst hh
    exact wellFormed_verb_two "setcursor " "setcursor".data rfl (by decide) theme
      (toString size) h (wellFormed_repr size)
  | seterror color message =>
    injection heq with hh
    subst hh
    exact wellFormed_verb_two "seterror " "seterror".data rfl (by decide) color
      (quote message) h.1 (wellFormed_quote message h.2)
  | setprop args =>
    injection heq with hh
    subst hh
    exact wellFormed_verb_arg "setprop " "setprop".data rfl (by decide) _ h
  | getprop args =>
    injection heq with hh
    subst hh
    exact wellFormed_verb_arg "getprop " "getprop".data rfl (by decide) _ h
  | splash => injection heq with hh; subst hh; decide
  | switchxkblayout keyboard command =>
    injection heq with hh
    subst hh
    exact wellFormed_verb_two "switchxkblayout " "switchxkblayout".data rfl (by decide)
      keyboard command h.1 h.2
  | systeminfo => injection heq with hh; subst hh; decide
  | version => injection heq with hh; subst hh; decide
  | workspacerules => injection heq with hh; subst hh; decide
  | workspaces => injection heq with hh; subst hh; decide
  | hyprpaper args =>
    injection heq with hh
    subst hh
    exact wellFormed_verb_arg "hyprpaper " "hyprpaper".data rfl (by decide) _ h
  | hyprsunset args =>
    injection heq with hh
    subst hh
    exact wellFormed_verb_arg "hyprsunset " "hyprsunset".data rfl (by decide) _ h

/-- C8 witness: concrete well-formed arguments for a two-argument builder,
a quoted-message builder and a single-argument builder. -/
theorem command_token_shape_witness :
    wellFormed (("keyword " ++ "general:gaps_in" ++ " " ++ "5") : String).data ∧
    wellFormed (("seterror " ++ "rgb(ff0000)" ++ " " ++ quote "broken config") :
      String).data ∧
    wellFormed (("dispatch " ++ "exec kitty") : String).data :=
  ⟨command_token_shape (.keyword "general:gaps_in" "5")
      ⟨by decide, by decide⟩ _ rfl,
   command_token_shape (.seterror "rgb(ff0000)" "broken config")
      ⟨by decide, by decide⟩ _ rfl,
   command_token_shape (.dispatch "exec kitty")
      (show wellFormed ("exec kitty" : String).data by decide) _ rfl⟩

end HyprlandMcp
